import Mathlib

/-!
Verification development for the forge agentic coding assistant runtime.

Rust strings are shallow-embedded as `List Char` (`Str`); byte positions in the
Rust code become list indices.  Filesystem state is an explicit map from path
strings to file contents; fallible operations return `Except`.  Each section
embeds one source file of the repository and is followed by the theorems about
it.
-/

set_option maxHeartbeats 1000000

namespace Forge

/-- Rust strings, embedded as lists of characters. -/
abbrev Str := List Char

/-- `leadsWith pat s`: `pat` is an initial segment of `s` (Rust `str::starts_with`
for exact character sequences). -/
def leadsWith : Str → Str → Bool
  | [], _ => true
  | _ :: _, [] => false
  | p :: ps, c :: cs => p == c && leadsWith ps cs

/-- `findSub pat s` : Rust `str::find` — index of the first occurrence of the
substring `pat` in `s`, if any. -/
def findSub (pat : Str) : Str → Option Nat
  | [] => if leadsWith pat [] then some 0 else none
  | c :: rest =>
    if leadsWith pat (c :: rest) then some 0
    else (findSub pat rest).map (· + 1)

theorem leadsWith_nil_iff (pat : Str) : leadsWith pat [] = true ↔ pat = [] := by
  cases pat <;> simp [leadsWith]

theorem leadsWith_self_append (pat t : Str) : leadsWith pat (pat ++ t) = true := by
  induction pat with
  | nil => simp [leadsWith]
  | cons p ps ih => simp [leadsWith, ih]

theorem leadsWith_length_le {pat s : Str} (h : leadsWith pat s = true) :
    pat.length ≤ s.length := by
  induction pat generalizing s with
  | nil => simp
  | cons p ps ih =>
    cases s with
    | nil => simp [leadsWith] at h
    | cons c cs =>
      simp only [leadsWith, Bool.and_eq_true] at h
      simpa [Nat.succ_le_succ_iff] using ih h.2

theorem leadsWith_iff_take {pat s : Str} :
    leadsWith pat s = true ↔ s.take pat.length = pat := by
  induction pat generalizing s with
  | nil => simp [leadsWith]
  | cons p ps ih =>
    cases s with
    | nil => simp [leadsWith]
    | cons c cs =>
      simp only [leadsWith, Bool.and_eq_true, beq_iff_eq, List.length_cons,
        List.take_succ_cons, ih, List.cons.injEq]
      constructor
      · rintro ⟨rfl, h⟩; exact ⟨rfl, h⟩
      · rintro ⟨rfl, h⟩; exact ⟨rfl, h⟩

/-- An occurrence of `pat` that fits inside the left part of an append is an
occurrence in that left part. -/
theorem leadsWith_of_append_left {pat a t : Str} (h : leadsWith pat (a ++ t) = true)
    (hlen : pat.length ≤ a.length) : leadsWith pat a = true := by
  rw [leadsWith_iff_take] at h ⊢
  rwa [List.take_append_eq_append_take, Nat.sub_eq_zero_of_le hlen, List.take_zero,
    List.append_nil] at h

theorem findSub_eq_some_iff (pat : Str) (s : Str) (i : Nat) :
    findSub pat s = some i ↔
      (leadsWith pat (s.drop i) = true ∧
        ∀ j, j < i → leadsWith pat (s.drop j) = false) := by
  induction s generalizing i with
  | nil =>
    by_cases h : leadsWith pat [] = true
    · simp only [findSub, if_pos h, List.drop_nil, Option.some.injEq]
      constructor
      · rintro rfl; exact ⟨h, by omega⟩
      · rintro ⟨-, hmin⟩
        by_contra hne
        have h0 : 0 < i := Nat.pos_of_ne_zero (fun h' => hne h'.symm)
        have := hmin 0 h0
        rw [h] at this
        cases this
    · simp only [findSub, if_neg h, List.drop_nil]
      constructor
      · intro h'; cases h'
      · rintro ⟨hc, -⟩; exact absurd hc h
  | cons c rest ih =>
    by_cases h : leadsWith pat (c :: rest) = true
    · simp only [findSub, if_pos h, Option.some.injEq]
      constructor
      · rintro rfl; exact ⟨by simpa using h, by omega⟩
      · rintro ⟨-, hmin⟩
        by_contra hne
        have h0 : 0 < i := Nat.pos_of_ne_zero (fun h' => hne h'.symm)
        have := hmin 0 h0
        rw [List.drop_zero, h] at this
        cases this
    · simp only [findSub, if_neg h]
      cases i with
      | zero =>
        simp only [List.drop_zero]
        constructor
        · intro h'
          rcases Option.map_eq_some'.mp h' with ⟨i', -, hi'⟩
          omega
        · rintro ⟨hlead, -⟩; exact absurd hlead h
      | succ i =>
        rw [Option.map_eq_some']
        constructor
        · rintro ⟨i', hfind, hi'⟩
          have heq : i' = i := by omega
          rw [heq] at hfind
          rcases (ih i).mp hfind with ⟨hlead, hmin⟩
          refine ⟨by simpa using hlead, ?_⟩
          intro j hj
          cases j with
          | zero =>
            rw [List.drop_zero]
            exact Bool.eq_false_iff.mpr h
          | succ j => simpa using hmin j (by omega)
        · rintro ⟨hlead, hmin⟩
          refine ⟨i, (ih i).mpr ⟨by simpa using hlead, ?_⟩, rfl⟩
          intro j hj
          simpa using hmin (j + 1) (by omega)

theorem findSub_eq_none_iff (pat : Str) (s : Str) :
    findSub pat s = none ↔ ∀ j, leadsWith pat (s.drop j) = false := by
  induction s with
  | nil =>
    by_cases h : leadsWith pat [] = true
    · simp only [findSub, if_pos h, List.drop_nil]
      constructor
      · intro h'; cases h'
      · intro hall
        have := hall 0
        rw [h] at this
        cases this
    · simp only [findSub, if_neg h, List.drop_nil]
      constructor
      · intro _ j; exact Bool.eq_false_iff.mpr h
      · intro _; trivial
  | cons c rest ih =>
    by_cases h : leadsWith pat (c :: rest) = true
    · simp only [findSub, if_pos h]
      constructor
      · intro h'; cases h'
      · intro hall
        have := hall 0
        rw [List.drop_zero, h] at this
        cases this
    · simp only [findSub, if_neg h, Option.map_eq_none']
      rw [ih]
      constructor
      · intro hall j
        cases j with
        | zero =>
          rw [List.drop_zero]
          exact Bool.eq_false_iff.mpr h
        | succ j => simpa using hall j
      · intro hall j
        simpa using hall (j + 1)

theorem findSub_length_bound {pat s : Str} {i : Nat} (hpat : pat ≠ [])
    (h : findSub pat s = some i) : i + pat.length ≤ s.length := by
  rcases (findSub_eq_some_iff pat s i).mp h with ⟨hlead, -⟩
  have hle := leadsWith_length_le hlead
  rw [List.length_drop] at hle
  have hi : i < s.length := by
    by_contra hge
    rw [List.drop_eq_nil_of_le (by omega)] at hlead
    exact hpat ((leadsWith_nil_iff pat).mp hlead)
  omega

/-- `findSub` at the head: if `pat` is nonempty and leads `s`, it is found at 0. -/
theorem findSub_zero {pat s : Str} (hpat : pat ≠ []) (h : leadsWith pat s = true) :
    findSub pat s = some 0 := by
  cases s with
  | nil => exact absurd ((leadsWith_nil_iff pat).mp h) hpat
  | cons c cs => simp [findSub, h]

/-- If the first occurrence of `pat` in `s ++ pat` is at `s.length` (no earlier
overlapping occurrence), then in any extension `s ++ (pat ++ t)` the first
occurrence is still at `s.length`. -/
theorem findSub_append_of_first {pat s : Str} (t : Str) (hpat : pat ≠ [])
    (h : findSub pat (s ++ pat) = some s.length) :
    findSub pat (s ++ (pat ++ t)) = some s.length := by
  rcases (findSub_eq_some_iff _ _ _).mp h with ⟨-, hmin⟩
  refine (findSub_eq_some_iff _ _ _).mpr ⟨?_, ?_⟩
  · rw [List.drop_append_eq_append_drop, List.drop_of_length_le (le_refl _),
      Nat.sub_self, List.drop_zero, List.nil_append]
    exact leadsWith_self_append pat t
  · intro j hj
    apply Bool.eq_false_iff.mpr
    intro htrue
    have hj' : j ≤ s.length := Nat.le_of_lt hj
    rw [List.drop_append_eq_append_drop, Nat.sub_eq_zero_of_le hj', List.drop_zero] at htrue
    rw [← List.append_assoc] at htrue
    have hfit : pat.length ≤ (s.drop j ++ pat).length := by
      simp only [List.length_append, List.length_drop]
      omega
    have hocc : leadsWith pat (s.drop j ++ pat) = true :=
      leadsWith_of_append_left htrue hfit
    have := hmin j hj
    rw [List.drop_append_eq_append_drop, Nat.sub_eq_zero_of_le hj', List.drop_zero] at this
    rw [this] at hocc
    cases hocc

instance {ε α : Type} [DecidableEq ε] [DecidableEq α] : DecidableEq (Except ε α)
  | .error e, .error f =>
    if h : e = f then .isTrue (by rw [h]) else .isFalse (by intro hc; injection hc; contradiction)
  | .error _, .ok _ => .isFalse (by intro hc; cases hc)
  | .ok _, .error _ => .isFalse (by intro hc; cases hc)
  | .ok a, .ok b =>
    if h : a = b then .isTrue (by rw [h]) else .isFalse (by intro hc; injection hc; contradiction)

/-! ## Structured Edit tool — src/crates/forge_tool/src/fs/fs_replace.rs -/

/-- Modelled from the spec: the `SEARCH` marker of `fs_replace_marker.rs` (a file
not under src/); the spec gives the markers byte-exact: `<<<<<<< SEARCH`. -/
def SEARCHm : Str := ['<', '<', '<', '<', '<', '<', '<', ' ', 'S', 'E', 'A', 'R', 'C', 'H']

/-- Modelled from the spec: the `DIVIDER` marker `=======` of `fs_replace_marker.rs`. -/
def DIVIDERm : Str := ['=', '=', '=', '=', '=', '=', '=']

/-- Modelled from the spec: the `REPLACE` marker `>>>>>>> REPLACE` of
`fs_replace_marker.rs`. -/
def REPLACEm : Str := ['>', '>', '>', '>', '>', '>', '>', ' ', 'R', 'E', 'P', 'L', 'A', 'C', 'E']

/-- A parsed SEARCH/REPLACE block (`struct Block` in fs_replace.rs). -/
structure Block where
  search : Str
  replace : Str
  deriving DecidableEq, Repr

instance : Inhabited Block := ⟨⟨[], []⟩⟩

/-- `normalize_line_endings` from fs_replace.rs: collapse each CRLF pair to LF,
leaving lone `\r` and every other character untouched. -/
def normalize_line_endings : Str → Str
  | [] => []
  | '\r' :: '\n' :: rest => '\n' :: normalize_line_endings rest
  | c :: rest => c :: normalize_line_endings rest

/-- The `while let Some(search_start) = diff[pos..].find(SEARCH)` loop of
`parse_blocks` (fs_replace.rs).  Every `find` in the source is relative to the
current position `pos`, so the loop is recursion on the remaining suffix of the
(already normalised) diff. -/
def parseBlocksLoop (d : Str) : Except String (List Block) :=
  match hfind : findSub SEARCHm d with
  | none => .ok []
  | some i =>
    -- position after the SEARCH marker
    let afterMarker := d.drop (i + SEARCHm.length)
    match findSub ['\n'] afterMarker with
    | none => .error "Invalid diff format: Missing newline after SEARCH marker"
    | some nl =>
      let searchArea := afterMarker.drop (nl + 1)
      match findSub DIVIDERm searchArea with
      | none => .error "Invalid diff format: Missing separator"
      | some sep =>
        let searchText := searchArea.take sep
        let afterDiv := searchArea.drop (sep + DIVIDERm.length)
        match findSub ['\n'] afterDiv with
        | none => .error "Invalid diff format: Missing newline after separator"
        | some nl2 =>
          let replaceArea := afterDiv.drop (nl2 + 1)
          match findSub REPLACEm replaceArea with
          | none => .error "Invalid diff format: Missing end marker"
          | some rep =>
            let replaceText := replaceArea.take rep
            let afterRep := replaceArea.drop (rep + REPLACEm.length)
            -- move past the newline after the REPLACE marker if it exists
            match findSub ['\n'] afterRep with
            | none =>
              (parseBlocksLoop afterRep).map (fun bs => ⟨searchText, replaceText⟩ :: bs)
            | some nl3 =>
              (parseBlocksLoop (afterRep.drop (nl3 + 1))).map
                (fun bs => ⟨searchText, replaceText⟩ :: bs)
  termination_by d.length
  decreasing_by
  all_goals
    have hb := findSub_length_bound (show SEARCHm ≠ [] by decide) hfind
    have hsl : SEARCHm.length = 14 := by decide
    simp only [List.length_drop]
    omega

/-- `parse_blocks` from fs_replace.rs: normalise line endings in the diff, run
the block loop, and reject a diff with zero blocks. -/
def parse_blocks (diff : Str) : Except String (List Block) :=
  match parseBlocksLoop (normalize_line_endings diff) with
  | .error e => .error e
  | .ok blocks =>
    if blocks.isEmpty then .error "Invalid diff format: No valid blocks found"
    else .ok blocks

/-- Filesystem state: the contents of each path, `none` when the file is absent.
Models the `tokio::fs`/`tempfile` collaborators of fs_replace.rs; fallible
operations other than `NamedTempFile::persist` are modelled on their success
path (their errors are only logged by the source). -/
structure FSState where
  files : Str → Option Str

/-- Writing `content` at `p` (a successful `NamedTempFile::persist` over `p`). -/
def setFile (fs : FSState) (p : Str) (content : Str) : FSState :=
  ⟨fun q => if q = p then some content else fs.files q⟩

/-- `fs::remove_file`. -/
def removeFile (fs : FSState) (p : Str) : FSState :=
  ⟨fun q => if q = p then none else fs.files q⟩

/-- `fs::rename(src, dst)`: moves the file; renaming a path onto itself leaves
the filesystem unchanged. -/
def renameFile (fs : FSState) (src dst : Str) : FSState :=
  if src = dst then fs
  else ⟨fun q => if q = src then none else if q = dst then fs.files src else fs.files q⟩

/-- `Path::exists`. -/
def fileExists (fs : FSState) (p : Str) : Bool := (fs.files p).isSome

/-- `persist_changes` from fs_replace.rs.  `tempContent` is the content of the
temp file handed in, `persistOk` the outcome of `temp_file.persist(&path)` and
`errMsg` the error string it reports on failure.  On success the backup file is
removed when present; on failure the backup, when present, is renamed back over
the target and the error is returned. -/
def persist_changes (tempContent : Str) (path backupPath : Str) (persistOk : Bool)
    (errMsg : String) (fs : FSState) : FSState × Except String Unit :=
  if persistOk then
    let fs1 := setFile fs path tempContent
    let fs2 := if fileExists fs1 backupPath then removeFile fs1 backupPath else fs1
    (fs2, .ok ())
  else
    let fs1 := if fileExists fs backupPath then renameFile fs backupPath path else fs
    (fs1, .error errMsg)

/-- Index of the last occurrence of `c` in `l`, if any. -/
def lastIdxOf (c : Char) : Str → Option Nat
  | [] => none
  | x :: xs =>
    match lastIdxOf c xs with
    | some i => some (i + 1)
    | none => if x = c then some 0 else none

/-- `Path::file_stem` on a single path component: the name up to its final dot;
a name whose only dot is leading (a hidden file) is its own stem. -/
def file_stem (name : Str) : Str :=
  match lastIdxOf '.' name with
  | none => name
  | some 0 => name
  | some i => name.take i

/-- `path.with_extension("bak")` as used for `backup_path` in `apply_changes`:
the final component's extension is replaced by `bak` (modelled for paths whose
final component is the part after the last `/`). -/
def with_extension_bak (path : Str) : Str :=
  match lastIdxOf '/' path with
  | none => file_stem path ++ ('.' :: ['b', 'a', 'k'])
  | some i => path.take (i + 1) ++ file_stem (path.drop (i + 1)) ++ ('.' :: ['b', 'a', 'k'])

/-- A chunk of the `dissimilar::diff` of the working buffer against a SEARCH
text.  `dissimilar` is an external crate, so `apply_changes` is verified over an
arbitrary chunk decomposition, constrained where needed by `IsDiffOf`. -/
inductive Chunk where
  | equal (text : Str)
  | delete (text : Str)
  | insert (text : Str)
  deriving DecidableEq, Repr

/-- Accumulator of the fuzzy-matching scan in `apply_changes`: `best` is
`best_match : Option<(start_idx, len)>`, `bestScore` is `best_score` and `pos`
is `current_pos`.  The source's `f64` score is modelled as an exact rational. -/
structure FuzzyScan where
  best : Option (Nat × Nat)
  bestScore : ℚ
  pos : Nat
  deriving DecidableEq, Repr

/-- One iteration of the `for chunk in chunks.iter()` loop in `apply_changes`:
an equal chunk scoring strictly above the best so far becomes the best match at
the current position; every chunk advances the position by its length. -/
def fuzzyStep (searchLen : Nat) (acc : FuzzyScan) : Chunk → FuzzyScan
  | .equal t =>
    let score : ℚ := (t.length : ℚ) / (searchLen : ℚ)
    let acc1 :=
      if acc.bestScore < score then
        { acc with best := some (acc.pos, t.length), bestScore := score }
      else acc
    { acc1 with pos := acc1.pos + t.length }
  | .delete t => { acc with pos := acc.pos + t.length }
  | .insert t => { acc with pos := acc.pos + t.length }

/-- The whole fuzzy scan over the diff chunks, starting from no match and a
best score of 0. -/
def fuzzyScan (searchLen : Nat) (chunks : List Chunk) : FuzzyScan :=
  chunks.foldl (fuzzyStep searchLen) ⟨none, 0, 0⟩

/-- `String::replace_range(start..endIdx, replacement)`: replaces the range
when it is valid and panics — modelled as `none` — when it is out of bounds
(`start > endIdx` or `endIdx > len`).  The source's byte indices are character
indices here, so the fuzzy path's skewed positions surface as out-of-bounds
ranges rather than char-boundary panics. -/
def replace_range (s : Str) (start endIdx : Nat) (replacement : Str) : Option Str :=
  if start ≤ endIdx ∧ endIdx ≤ s.length then
    some (s.take start ++ replacement ++ s.drop endIdx)
  else none

/-- `.replace("\r\n", "\n")` followed by `.replace('\r', "\n")` as used for the
normalised retry in `apply_changes`: first pass collapses CRLF pairs. -/
def crlfToLf : Str → Str
  | [] => []
  | '\r' :: '\n' :: rest => '\n' :: crlfToLf rest
  | c :: rest => c :: crlfToLf rest

/-- Second pass of the normalised retry: every remaining `\r` becomes `\n`. -/
def crToLf : Str → Str
  | [] => []
  | '\r' :: rest => '\n' :: crToLf rest
  | c :: rest => c :: crToLf rest

/-- The full CR/LF normalisation applied to both buffer and SEARCH text before
the normalised retry in `apply_changes`. -/
def normalizeCrlf (s : Str) : Str := crToLf (crlfToLf s)

/-- The body of the `for block in blocks` loop of `apply_changes`: exact match,
then CR/LF-normalised match, then `dissimilar`-based fuzzy match against the 0.7
threshold (`best_score > 0.7` in the source, modelled as the rational 7/10).
`diffAlgo` stands for `dissimilar::diff`.  `none` is a `replace_range` panic:
the source counts insert chunks into `current_pos`, so the recorded best range
can exceed the buffer. -/
def applyBlock (diffAlgo : Str → Str → List Chunk) (result : Str) (block : Block) :
    Option Str :=
  match findSub block.search result with
  | some start => replace_range result start (start + block.search.length) block.replace
  | none =>
    let normalizedSearch := normalizeCrlf block.search
    let normalizedResult := normalizeCrlf result
    match findSub normalizedSearch normalizedResult with
    | some start => replace_range result start (start + block.search.length) block.replace
    | none =>
      let chunks := diffAlgo result block.search
      let scan := fuzzyScan block.search.length chunks
      match scan.best with
      | some (start, len) =>
        if 7 / 10 < scan.bestScore then
          replace_range result start (start + len) block.replace
        else some result
      | none => some result

/-- The `for block in blocks` loop itself: blocks applied sequentially, a panic
in any block unwinding the whole call. -/
def applyBlocks (diffAlgo : Str → Str → List Chunk) : Str → List Block → Option Str
  | result, [] => some result
  | result, block :: rest =>
    match applyBlock diffAlgo result block with
    | none => none
    | some result1 => applyBlocks diffAlgo result1 rest

/-- `apply_changes` from fs_replace.rs over the explicit filesystem state.
`blocks[0]` of the source is `blocks.headI` here; the only caller guarantees a
nonempty list.  `persistOk`/`errMsg` model the `NamedTempFile::persist` outcome
and `diffAlgo` models `dissimilar::diff`.  The second component is `none` when
the block loop panics: the call unwinds before persist, leaving the filesystem
as it stood (backup created, target untouched). -/
def apply_changes (diffAlgo : Str → Str → List Chunk) (persistOk : Bool)
    (errMsg : String) (path : Str) (blocks : List Block) (fs : FSState) :
    FSState × Option (Except String Str) :=
  let backupPath := with_extension_bak path
  -- handle new file or empty file case
  if fileExists fs path = false ∨ (blocks.headI).search = [] then
    let result := if (blocks.headI).replace ≠ [] then (blocks.headI).replace else []
    let pr := persist_changes result path backupPath persistOk errMsg fs
    (pr.1, some (pr.2.map (fun _ => result)))
  else
    -- create backup and read existing file
    let fs1 := setFile fs backupPath ((fs.files path).getD [])
    let content := (fs1.files path).getD []
    -- apply each block sequentially; a panic unwinds before persist
    match applyBlocks diffAlgo content blocks with
    | none => (fs1, none)
    | some result =>
      let pr := persist_changes result path backupPath persistOk errMsg fs1
      (pr.1, some (pr.2.map (fun _ => result)))

/-- On persist success the target holds the temp content and the backup file is
gone (when its path differs from the target). -/
theorem persist_changes_success (tempContent path backupPath : Str)
    (errMsg : String) (fs : FSState) (hbp : backupPath ≠ path) :
    (persist_changes tempContent path backupPath true errMsg fs).1.files path =
      some tempContent ∧
    (persist_changes tempContent path backupPath true errMsg fs).2 = .ok () := by
  have hset : (setFile fs path tempContent).files path = some tempContent := by
    simp [setFile]
  constructor
  · have key : ∀ g : FSState, g.files path = some tempContent →
        (if fileExists g backupPath = true then removeFile g backupPath else g).files path =
          some tempContent := by
      intro g hg
      by_cases hbe : fileExists g backupPath = true
      · rw [if_pos hbe]
        simp [removeFile, Ne.symm hbp, hg]
      · rw [if_neg hbe]
        exact hg
    simpa [persist_changes] using key (setFile fs path tempContent) hset
  · simp [persist_changes]

/-- C3 (amended): create/overwrite — when the target file is absent or the
first block's SEARCH is empty, and the target's computed backup path (its
extension replaced by `bak`) differs from the target itself, applying the
blocks writes exactly the first block's REPLACE as the file's entire content
and returns it, regardless of the file's previous content and of later blocks. -/
theorem create_overwrite_writes_first_replace
    (diffAlgo : Str → Str → List Chunk) (errMsg : String) (path : Str)
    (b : Block) (rest : List Block) (fs : FSState)
    (hcase : fs.files path = none ∨ b.search = [])
    (hbak : with_extension_bak path ≠ path) :
    (apply_changes diffAlgo true errMsg path (b :: rest) fs).2 = some (.ok b.replace) ∧
    (apply_changes diffAlgo true errMsg path (b :: rest) fs).1.files path =
      some b.replace := by
  have hcond : fileExists fs path = false ∨ ((b :: rest).headI).search = [] := by
    rcases hcase with h | h
    · exact Or.inl (by simp [fileExists, h])
    · exact Or.inr (by simpa [List.headI] using h)
  have hres : (if ((b :: rest).headI).replace ≠ [] then ((b :: rest).headI).replace else []) =
      b.replace := by
    by_cases h : b.replace = [] <;> simp [List.headI, h]
  have hp := persist_changes_success b.replace path (with_extension_bak path) errMsg fs hbak
  simp only [apply_changes, if_pos hcond, hres]
  exact ⟨by rw [hp.2]; rfl, hp.1⟩

/-- Witness for the amended create/overwrite theorem at a concrete input. -/
theorem create_overwrite_writes_first_replace_witness :
    (FSState.files ⟨fun _ => none⟩ ['t', '.', 't', 'x', 't'] = none ∨
      ([] : Str) = []) ∧
    with_extension_bak ['t', '.', 't', 'x', 't'] ≠ ['t', '.', 't', 'x', 't'] ∧
    (apply_changes (fun _ _ => []) true "" ['t', '.', 't', 'x', 't']
        [⟨[], ['h', 'i']⟩, ⟨['z'], ['w']⟩] ⟨fun _ => none⟩).2 = some (.ok ['h', 'i']) ∧
    (apply_changes (fun _ _ => []) true "" ['t', '.', 't', 'x', 't']
        [⟨[], ['h', 'i']⟩, ⟨['z'], ['w']⟩] ⟨fun _ => none⟩).1.files
        ['t', '.', 't', 'x', 't'] = some ['h', 'i'] := by
  refine ⟨Or.inl rfl, by decide, ?_⟩
  have h := create_overwrite_writes_first_replace (fun _ _ => []) ""
    ['t', '.', 't', 'x', 't'] ⟨[], ['h', 'i']⟩ [⟨['z'], ['w']⟩] ⟨fun _ => none⟩
    (Or.inl rfl) (by decide)
  exact h

/-- C3 counterexample: for the target path `foo.bak` the computed backup path
equals the target, so after the create/overwrite branch persists the REPLACE
body, the backup-cleanup step deletes the freshly written file: the call
returns the REPLACE body but the file does not hold it (it no longer exists). -/
theorem create_overwrite_counterexample :
    (apply_changes (fun _ _ => []) true "" ['f', 'o', 'o', '.', 'b', 'a', 'k']
        [⟨[], ['h', 'i']⟩] ⟨fun _ => none⟩).2 = some (.ok ['h', 'i']) ∧
    (apply_changes (fun _ _ => []) true "" ['f', 'o', 'o', '.', 'b', 'a', 'k']
        [⟨[], ['h', 'i']⟩] ⟨fun _ => none⟩).1.files
        ['f', 'o', 'o', '.', 'b', 'a', 'k'] = none := by
  constructor
  · rfl
  · decide

theorem take_append_self (a t : Str) : (a ++ t).take a.length = a := by
  rw [List.take_append_eq_append_take, Nat.sub_self, List.take_zero, List.append_nil,
    List.take_length]

theorem drop_append_self (a t : Str) : (a ++ t).drop a.length = t := by
  rw [List.drop_append_eq_append_drop, Nat.sub_self, List.drop_length, List.nil_append,
    List.drop_zero]

theorem drop_two_append (a p t : Str) : (a ++ (p ++ t)).drop (a.length + p.length) = t := by
  rw [← List.append_assoc, ← List.length_append, drop_append_self]

theorem leadsWith_cons_self (c : Char) (l : Str) : leadsWith [c] (c :: l) = true := by
  simp [leadsWith]

theorem findSub_cons_self (c : Char) (l : Str) : findSub [c] (c :: l) = some 0 :=
  findSub_zero (by simp) (leadsWith_cons_self c l)

/-- The byte-exact rendering of one SEARCH/REPLACE block, per the spec's block
format: `<<<<<<< SEARCH\n` + search + `=======\n` + replace + `>>>>>>> REPLACE\n`. -/
def renderBlock (b : Block) : Str :=
  SEARCHm ++ '\n' :: (b.search ++ (DIVIDERm ++ '\n' :: (b.replace ++ (REPLACEm ++ ['\n']))))

/-- Concatenation of rendered blocks: a well-formed diff. -/
def renderBlocks : List Block → Str
  | [] => []
  | b :: rest => renderBlock b ++ renderBlocks rest

/-- A block is unambiguous for the greedy parser: its search bytes do not create
an earlier occurrence of the `=======` separator, nor its replace bytes an
earlier occurrence of the `>>>>>>> REPLACE` end marker. -/
def WellFormedBlock (b : Block) : Prop :=
  findSub DIVIDERm (b.search ++ DIVIDERm) = some b.search.length ∧
  findSub REPLACEm (b.replace ++ REPLACEm) = some b.replace.length

instance (b : Block) : Decidable (WellFormedBlock b) := by
  unfold WellFormedBlock
  infer_instance

/-- Parsing one rendered block off the front of the diff yields that block and
continues with the rest. -/
theorem parseBlocksLoop_cons (b : Block) (t : Str) (wf : WellFormedBlock b) :
    parseBlocksLoop (renderBlock b ++ t) = (parseBlocksLoop t).map (fun bs => b :: bs) := by
  have hshape : renderBlock b ++ t =
      SEARCHm ++ '\n' ::
        (b.search ++ (DIVIDERm ++ '\n' :: (b.replace ++ (REPLACEm ++ '\n' :: t)))) := by
    simp [renderBlock]
  rw [hshape, parseBlocksLoop.eq_def]
  rw [findSub_zero (show SEARCHm ≠ [] by decide) (leadsWith_self_append SEARCHm _)]
  dsimp only []
  rw [Nat.zero_add, drop_append_self, findSub_cons_self]
  dsimp only []
  rw [Nat.zero_add]
  rw [show ('\n' ::
      (b.search ++ (DIVIDERm ++ '\n' :: (b.replace ++ (REPLACEm ++ '\n' :: t))))).drop 1 =
      b.search ++ (DIVIDERm ++ '\n' :: (b.replace ++ (REPLACEm ++ '\n' :: t))) from rfl]
  rw [findSub_append_of_first _ (show DIVIDERm ≠ [] by decide) wf.1]
  dsimp only []
  rw [take_append_self, drop_two_append, findSub_cons_self]
  dsimp only []
  rw [Nat.zero_add]
  rw [show ('\n' :: (b.replace ++ (REPLACEm ++ '\n' :: t))).drop 1 =
      b.replace ++ (REPLACEm ++ '\n' :: t) from rfl]
  rw [findSub_append_of_first _ (show REPLACEm ≠ [] by decide) wf.2]
  dsimp only []
  rw [take_append_self, drop_two_append, findSub_cons_self]
  dsimp only []
  rw [Nat.zero_add]
  rw [show ('\n' :: t).drop 1 = t from rfl]

theorem parseBlocksLoop_renderBlocks (bs : List Block)
    (hwf : ∀ b ∈ bs, WellFormedBlock b) :
    parseBlocksLoop (renderBlocks bs) = .ok bs := by
  induction bs with
  | nil =>
    rw [renderBlocks, parseBlocksLoop.eq_def]
    rfl
  | cons b rest ih =>
    rw [renderBlocks, parseBlocksLoop_cons b _ (hwf b (by simp)),
      ih (fun x hx => hwf x (by simp [hx]))]
    rfl

/-- C4: diff parsing contract — `parse_blocks` normalises CRLF to LF in the
diff only and parses blocks left to right: every diff whose normalisation is a
concatenation of well-formed blocks parses to exactly those blocks in order,
and each malformed shape fails with its own parse error message — missing
newline after the SEARCH marker, missing separator, missing newline after the
separator, missing end marker, and zero blocks — all five messages distinct. -/
theorem parse_blocks_contract :
    (∀ (diff : Str) (bs : List Block), bs ≠ [] → (∀ b ∈ bs, WellFormedBlock b) →
      normalize_line_endings diff = renderBlocks bs → parse_blocks diff = .ok bs) ∧
    parse_blocks SEARCHm =
      .error "Invalid diff format: Missing newline after SEARCH marker" ∧
    parse_blocks (SEARCHm ++ ['\n']) = .error "Invalid diff format: Missing separator" ∧
    parse_blocks (SEARCHm ++ '\n' :: DIVIDERm) =
      .error "Invalid diff format: Missing newline after separator" ∧
    parse_blocks (SEARCHm ++ '\n' :: (DIVIDERm ++ ['\n'])) =
      .error "Invalid diff format: Missing end marker" ∧
    parse_blocks [] = .error "Invalid diff format: No valid blocks found" ∧
    ["Invalid diff format: Missing newline after SEARCH marker",
     "Invalid diff format: Missing separator",
     "Invalid diff format: Missing newline after separator",
     "Invalid diff format: Missing end marker",
     "Invalid diff format: No valid blocks found"].Nodup := by
  refine ⟨?_, ?_, ?_, ?_, ?_, ?_, by decide⟩
  · intro diff bs hne hwf hnorm
    simp only [parse_blocks, hnorm, parseBlocksLoop_renderBlocks bs hwf]
    cases bs with
    | nil => exact absurd rfl hne
    | cons b rest => rfl
  all_goals
    simp only [parse_blocks]
    rw [parseBlocksLoop.eq_def]
    rfl

/-- Witness for the parsing contract: a one-block diff written with CRLF line
endings normalises to the rendered block and parses to exactly that block. -/
theorem parse_blocks_contract_witness :
    (([⟨['a'], ['x']⟩] : List Block) ≠ [] ∧
      (∀ b ∈ ([⟨['a'], ['x']⟩] : List Block), WellFormedBlock b) ∧
      normalize_line_endings (SEARCHm ++ '\r' :: '\n' :: 'a' ::
          (DIVIDERm ++ '\r' :: '\n' :: 'x' :: (REPLACEm ++ ['\r', '\n']))) =
        renderBlocks [⟨['a'], ['x']⟩]) ∧
    parse_blocks (SEARCHm ++ '\r' :: '\n' :: 'a' ::
        (DIVIDERm ++ '\r' :: '\n' :: 'x' :: (REPLACEm ++ ['\r', '\n']))) =
      .ok [⟨['a'], ['x']⟩] := by
  refine ⟨⟨by decide, by decide, by decide⟩, ?_⟩
  exact parse_blocks_contract.1 _ _ (by decide) (by decide) (by decide)

/-! ## Command parser — src/crates/forge_domain/src/command.rs -/

/-- Rust `char::is_whitespace`: the Unicode White_Space code points. -/
def rustIsWhitespace (c : Char) : Bool :=
  (0x9 ≤ c.toNat && c.toNat ≤ 0xD) || c.toNat == 0x20 || c.toNat == 0x85 ||
  c.toNat == 0xA0 || c.toNat == 0x1680 || (0x2000 ≤ c.toNat && c.toNat ≤ 0x200A) ||
  c.toNat == 0x2028 || c.toNat == 0x2029 || c.toNat == 0x202F || c.toNat == 0x205F ||
  c.toNat == 0x3000

/-- Rust `str::trim`. -/
def rustTrim (s : Str) : Str :=
  ((s.dropWhile rustIsWhitespace).reverse.dropWhile rustIsWhitespace).reverse

/-- Rust `str::split_whitespace`: split on whitespace runs, dropping empty
pieces. -/
def rustSplitWhitespace (s : Str) : List Str :=
  (s.splitOnP rustIsWhitespace).filter (fun w => !w.isEmpty)

/-- Rust `[String].join(" ")`. -/
def joinSpace : List Str → Str
  | [] => []
  | [w] => w
  | w :: rest => w ++ ' ' :: joinSpace rest

/-- `ConfigCommand` from command.rs. -/
inductive ConfigCommand where
  | list
  | get (key : Str)
  | set (key : Str) (value : Str)
  deriving DecidableEq, Repr

/-- `Command` from command.rs.  `End` is `endCmd` here (`end` is reserved). -/
inductive Command where
  | endCmd
  | new
  | reload
  | message (text : Str)
  | info
  | exit
  | config (c : ConfigCommand)
  deriving DecidableEq, Repr

/-- An apostrophe, for building the source's quoted error message. -/
def sq : String := String.mk [Char.ofNat 39]

/-- The `Invalid config subcommand` message of `ConfigCommand::parse`, quoting
the offending subcommand. -/
def invalidSubcommandMsg (x : Str) : String :=
  "Invalid config subcommand: " ++ String.mk x ++ ". Use " ++ sq ++ "set" ++ sq ++
    ", " ++ sq ++ "get" ++ sq ++ ", or no subcommand to list all options"

/-- `ConfigCommand::parse` from command.rs.  `Error::CommandParse` (error.rs is
not under src/) is modelled as its message string via `Except String`. -/
def ConfigCommand.parse (args : List Str) : Except String ConfigCommand :=
  match args.head? with
  | none => .ok .list
  | some w =>
    if w = "set".toList then
      if args.length < 3 then .error "Usage: /config set <key> <value>"
      else .ok (.set (args.getD 1 []) (joinSpace (args.drop 2)))
    else if w = "get".toList then
      if args.length ≠ 2 then .error "Usage: /config get <key>"
      else .ok (.get (args.getD 1 []))
    else .error (invalidSubcommandMsg w)

/-- `Command::parse` from command.rs. -/
def Command.parse (input : Str) : Except String Command :=
  let trimmed := rustTrim input
  -- handle config commands
  if leadsWith "/config".toList trimmed = true then
    let args := (rustSplitWhitespace trimmed).drop 1
    (ConfigCommand.parse args).map Command.config
  else
    if trimmed = "/end".toList then .ok .endCmd
    else if trimmed = "/new".toList then .ok .new
    else if trimmed = "/reload".toList then .ok .reload
    else if trimmed = "/info".toList then .ok .info
    else if trimmed = "/exit".toList then .ok .exit
    else .ok (.message trimmed)

/-- C7 (amended): command parser dispatch — `Command::parse` never panics and
only returns a parse error for malformed `/config` shapes (with distinct usage
messages); it dispatches `/new`, `/reload`, `/info`, `/exit`, `/end` and
`/config …` to their Commands, while `/models` and every other non-directive
input become `Message` of the trimmed text. -/
theorem command_parse_dispatch :
    (∀ input : Str, (∃ c, Command.parse input = .ok c) ∨
      (∃ e, Command.parse input = .error e ∧
        leadsWith "/config".toList (rustTrim input) = true)) ∧
    Command.parse "/end".toList = .ok .endCmd ∧
    Command.parse "/new".toList = .ok .new ∧
    Command.parse "/reload".toList = .ok .reload ∧
    Command.parse "/info".toList = .ok .info ∧
    Command.parse "/exit".toList = .ok .exit ∧
    Command.parse "/config".toList = .ok (.config .list) ∧
    Command.parse "/config set model gpt-4o mini".toList =
      .ok (.config (.set "model".toList "gpt-4o mini".toList)) ∧
    Command.parse "/config get".toList = .error "Usage: /config get <key>" ∧
    Command.parse "/config set x".toList = .error "Usage: /config set <key> <value>" ∧
    Command.parse "/models".toList = .ok (.message "/models".toList) ∧
    (∀ input : Str, leadsWith "/config".toList (rustTrim input) = false →
      rustTrim input ∉ ["/end".toList, "/new".toList, "/reload".toList,
        "/info".toList, "/exit".toList] →
      Command.parse input = .ok (.message (rustTrim input))) := by
  refine ⟨?_, by decide, by decide, by decide, by decide, by decide, by decide,
    by decide, by decide, by decide, by decide, ?_⟩
  · intro input
    by_cases hcfg : leadsWith "/config".toList (rustTrim input) = true
    · rcases hc : ConfigCommand.parse ((rustSplitWhitespace (rustTrim input)).drop 1)
        with e | c
      · refine Or.inr ⟨e, ?_, hcfg⟩
        simp only [Command.parse, if_pos hcfg, hc, Except.map]
      · refine Or.inl ⟨.config c, ?_⟩
        simp only [Command.parse, if_pos hcfg, hc, Except.map]
    · left
      simp only [Command.parse, if_neg hcfg]
      repeat' split
      all_goals exact ⟨_, rfl⟩
  · intro input hcfg hmem
    simp only [List.mem_cons, List.not_mem_nil, or_false] at hmem
    push_neg at hmem
    obtain ⟨h1, h2, h3, h4, h5⟩ := hmem
    have hcfg' : ¬ leadsWith "/config".toList (rustTrim input) = true := by
      rw [hcfg]
      exact Bool.false_ne_true
    simp only [Command.parse, if_neg hcfg', if_neg h1, if_neg h2, if_neg h3, if_neg h4,
      if_neg h5]

/-- Witness for the command-parser theorem: a plain message input hits the
fallback arm of the dispatch. -/
theorem command_parse_dispatch_witness :
    (leadsWith "/config".toList (rustTrim "  hello  ".toList) = false ∧
      rustTrim "  hello  ".toList ∉ ["/end".toList, "/new".toList, "/reload".toList,
        "/info".toList, "/exit".toList]) ∧
    Command.parse "  hello  ".toList = .ok (.message (rustTrim "  hello  ".toList)) := by
  refine ⟨⟨by decide, by decide⟩, ?_⟩
  exact command_parse_dispatch.2.2.2.2.2.2.2.2.2.2.2 _ (by decide) (by decide)

/-- C7 counterexample: `Command::parse` is not a total function into `Command` —
the malformed directive `/config get` yields a parse error, not a Command — and
there is no dedicated `/models` arm: `/models` parses to `Message("/models")`
rather than a models command. -/
theorem command_parse_counterexample :
    Command.parse "/config get".toList = .error "Usage: /config get <key>" ∧
    (∀ c : Command, Command.parse "/config get".toList ≠ .ok c) ∧
    Command.parse "/models".toList = .ok (.message "/models".toList) := by
  refine ⟨by decide, ?_, by decide⟩
  intro c h
  rw [show Command.parse "/config get".toList = .error "Usage: /config get <key>"
    by decide] at h
  cases h

/-! ## Context model — src/crates/forge_domain/src/context.rs -/

/-- Modelled from the spec: JSON values (`serde_json::Value`), as far as the
verified components inspect them. -/
inductive Json where
  | null
  | str (s : Str)
  | num (n : Int)
  | bool (b : Bool)
  | arr (xs : List Json)
  | obj (fields : List (Str × Json))

/-- Modelled from the spec: `ToolName`, an opaque string identifier with
equality by value (tool_name.rs is not under src/). -/
abbrev ToolName := Str

/-- Modelled from the spec: `ToolCallFull = { name, call_id?, arguments }`
(tool_call.rs is not under src/). -/
structure ToolCallFull where
  name : ToolName
  callId : Option Str
  arguments : Json

/-- Modelled from the spec: `ToolResult = { name, call_id, content, is_error }`
(tool_result.rs is not under src/). -/
structure ToolResult where
  name : ToolName
  callId : Option Str
  content : Json
  isError : Bool

/-- Modelled from the spec: `ToolDefinition = { name, description, input_schema,
output_schema? }` (tool_definition.rs is not under src/). -/
structure ToolDefinition where
  name : ToolName
  description : Str
  inputSchema : Json
  outputSchema : Option Json

/-- Modelled from the spec: the optional `ToolChoice` of a Context, treated as
opaque data (tool_choice.rs is not under src/). -/
structure ToolChoice where
  tag : Str

/-- `ImageType` from context.rs. -/
inductive ImageType where
  | jpeg
  | png
  | webp
  deriving DecidableEq, Repr

/-- `ContentType` from context.rs. -/
inductive ContentType where
  | image (t : ImageType)
  | text
  deriving DecidableEq, Repr

/-- `Attachment` from context.rs. -/
structure Attachment where
  content : Str
  path : Str
  contentType : ContentType

/-- `Role` from context.rs. -/
inductive Role where
  | system
  | user
  | assistant
  deriving DecidableEq, Repr

/-- `ContentMessage` from context.rs. -/
structure ContentMessage where
  role : Role
  content : Str
  toolCalls : Option (List ToolCallFull)

/-- `ContextMessage` from context.rs.  The source's `Attachments(HashSet)` set
is modelled as a list. -/
inductive ContextMessage where
  | contentMessage (m : ContentMessage)
  | toolMessage (r : ToolResult)
  | attachments (a : List Attachment)

/-- `ContextMessage::user`. -/
def ContextMessage.user (content : Str) : ContextMessage :=
  .contentMessage ⟨.user, content, none⟩

/-- `ContextMessage::system`. -/
def ContextMessage.system (content : Str) : ContextMessage :=
  .contentMessage ⟨.system, content, none⟩

/-- `ContextMessage::assistant` from context.rs: an empty tool-call list is
normalised to `none` before the message is built. -/
def ContextMessage.assistant (content : Str) (toolCalls : Option (List ToolCallFull)) :
    ContextMessage :=
  let toolCalls := toolCalls.bind (fun calls => if calls.isEmpty then none else some calls)
  .contentMessage ⟨.assistant, content, toolCalls⟩

/-- `ContextMessage::tool_result`. -/
def ContextMessage.tool_result (result : ToolResult) : ContextMessage :=
  .toolMessage result

/-- `Context` from context.rs. -/
structure Context where
  messages : List ContextMessage
  tools : List ToolDefinition
  toolChoice : Option ToolChoice

/-- `Context::default()`. -/
def Context.default : Context := ⟨[], [], none⟩

/-- `Context::add_message` (push at the back). -/
def Context.add_message (ctx : Context) (content : ContextMessage) : Context :=
  { ctx with messages := ctx.messages ++ [content] }

/-- `Context::add_tool_results` (append the batch as tool messages). -/
def Context.add_tool_results (ctx : Context) (results : List ToolResult) : Context :=
  { ctx with messages := ctx.messages ++ results.map ContextMessage.tool_result }

/-- `Context::extend_tools`. -/
def Context.extend_tools (ctx : Context) (tools : List ToolDefinition) : Context :=
  { ctx with tools := ctx.tools ++ tools }

/-- `Context::set_first_system_message` from context.rs: on an empty context a
system message is appended; otherwise, when the first message is a content
message, its content is overwritten in place if it is a System message and a
fresh System message is inserted at position 0 if it is not; when the first
message is not a content message the `if let` falls through and the context is
returned unchanged. -/
def Context.set_first_system_message (ctx : Context) (content : Str) : Context :=
  if ctx.messages.isEmpty then ctx.add_message (ContextMessage.system content)
  else
    match ctx.messages with
    | .contentMessage cm :: rest =>
      if cm.role = .system then
        { ctx with messages := .contentMessage { cm with content := content } :: rest }
      else
        { ctx with messages := ContextMessage.system content :: .contentMessage cm :: rest }
    | _ => ctx

mutual

/-- Modelled from the spec: `serde_json::to_string` over the embedded JSON
values (string escaping is not modelled; no claim inspects the rendered text). -/
def renderJson : Json → Str
  | .null => "null".toList
  | .str s => '"' :: (s ++ ['"'])
  | .num n => (toString n).toList
  | .bool true => "true".toList
  | .bool false => "false".toList
  | .arr xs => '[' :: (renderJsonList xs ++ [']'])
  | .obj fs => Char.ofNat 123 :: (renderJsonObj fs ++ [Char.ofNat 125])

/-- Comma-joined rendering of a JSON array's elements. -/
def renderJsonList : List Json → Str
  | [] => []
  | [x] => renderJson x
  | x :: rest => renderJson x ++ ',' :: renderJsonList rest

/-- Comma-joined rendering of a JSON object's fields. -/
def renderJsonObj : List (Str × Json) → Str
  | [] => []
  | [(k, v)] => '"' :: (k ++ '"' :: ':' :: renderJson v)
  | (k, v) :: rest => ('"' :: (k ++ '"' :: ':' :: renderJson v)) ++ ',' :: renderJsonObj rest

end

/-- The `Display` rendering of `Role` (strum derive: the variant name). -/
def roleName : Role → Str
  | .system => "System".toList
  | .user => "User".toList
  | .assistant => "Assistant".toList

/-- The per-message part of `Context::to_text` from context.rs. -/
def ContextMessage.render : ContextMessage → Str
  | .contentMessage m =>
    "<message role=\"".toList ++ roleName m.role ++ "\">".toList ++
      "<content>".toList ++ m.content ++ "</content>".toList ++
      (match m.toolCalls with
       | none => []
       | some calls =>
         calls.foldl (fun acc call =>
           acc ++ "<tool_call name=\"".toList ++ call.name ++ "\"><![CDATA[".toList ++
             renderJson call.arguments ++ "]]></tool_call>".toList) []) ++
      "</message>".toList
  | .toolMessage r =>
    "<message role=\"tool\">".toList ++ "<tool_result name=\"".toList ++ r.name ++
      "\"><![CDATA[".toList ++ renderJson r.content ++ "]]></tool_result>".toList ++
      "</message>".toList
  | .attachments atts =>
    atts.foldl (fun acc a =>
      acc ++ "<file_attachment path=\"".toList ++ a.path ++ "\">".toList) []

/-- `Context::to_text` from context.rs. -/
def Context.to_text (ctx : Context) : Str :=
  "<chat_history>".toList ++
    ctx.messages.foldl (fun acc m => acc ++ m.render) [] ++ "</chat_history>".toList

/-- C8 (amended): `set_first_system_message` — on an empty context it appends a
System message with the given content; when the first message is a
ContentMessage it replaces its content in place if it is the System message and
inserts a fresh System message at position 0 otherwise, keeping every other
message unchanged and in order, and never touching tools or tool choice; when
the first message is a ToolResult or an Attachments message the context is
returned unchanged (no System message is inserted). -/
theorem set_first_system_message_contract (ctx : Context) (content : Str) :
    (ctx.messages = [] →
      (ctx.set_first_system_message content).messages = [ContextMessage.system content]) ∧
    (∀ cm rest, ctx.messages = .contentMessage cm :: rest →
      (cm.role = .system →
        (ctx.set_first_system_message content).messages =
          .contentMessage { cm with content := content } :: rest) ∧
      (cm.role ≠ .system →
        (ctx.set_first_system_message content).messages =
          ContextMessage.system content :: .contentMessage cm :: rest)) ∧
    ((ctx.set_first_system_message content).tools = ctx.tools ∧
      (ctx.set_first_system_message content).toolChoice = ctx.toolChoice) ∧
    (∀ m rest, ctx.messages = m :: rest → (∀ cm, m ≠ .contentMessage cm) →
      ctx.set_first_system_message content = ctx) := by
  refine ⟨?_, ?_, ?_, ?_⟩
  · intro h
    simp [Context.set_first_system_message, h, Context.add_message]
  · intro cm rest h
    constructor
    · intro hrole
      simp [Context.set_first_system_message, h, hrole]
    · intro hne
      simp [Context.set_first_system_message, h, hne]
  · rcases hm : ctx.messages with _ | ⟨m, rest⟩
    · simp [Context.set_first_system_message, hm, Context.add_message]
    · cases m with
      | contentMessage cm =>
        by_cases hrole : cm.role = .system <;>
          simp [Context.set_first_system_message, hm, hrole]
      | toolMessage r => simp [Context.set_first_system_message, hm]
      | attachments a => simp [Context.set_first_system_message, hm]
  · intro m rest h hnc
    cases m with
    | contentMessage cm => exact absurd rfl (hnc cm)
    | toolMessage r => simp [Context.set_first_system_message, h]
    | attachments a => simp [Context.set_first_system_message, h]

/-- Witness for the system-message theorem: inserting over a User-headed
context puts the System message at position 0 and keeps the User message. -/
theorem set_first_system_message_contract_witness :
    ((Context.mk [ContextMessage.user ['h', 'i']] [] none).messages =
      .contentMessage ⟨.user, ['h', 'i'], none⟩ :: [] ∧
      (Role.user ≠ Role.system)) ∧
    ((Context.mk [ContextMessage.user ['h', 'i']] [] none).set_first_system_message
        ['s']).messages =
      ContextMessage.system ['s'] :: .contentMessage ⟨.user, ['h', 'i'], none⟩ :: [] := by
  refine ⟨⟨rfl, by decide⟩, ?_⟩
  exact ((set_first_system_message_contract
    (Context.mk [ContextMessage.user ['h', 'i']] [] none) ['s']).2.1
    ⟨.user, ['h', 'i'], none⟩ [] rfl).2 (by decide)

/-- C8 counterexample: on a context whose first message is a ToolResult batch,
`set_first_system_message` silently does nothing — the result is the original
context and position 0 holds no System message — contradicting the claim that a
System message is inserted at position 0 whenever none is present. -/
theorem set_first_system_message_counterexample :
    (Context.set_first_system_message
        ⟨[ContextMessage.toolMessage ⟨['t'], none, Json.null, false⟩], [], none⟩ ['s']) =
      ⟨[ContextMessage.toolMessage ⟨['t'], none, Json.null, false⟩], [], none⟩ ∧
    ∀ cm : ContentMessage,
      (Context.set_first_system_message
          ⟨[ContextMessage.toolMessage ⟨['t'], none, Json.null, false⟩], [], none⟩
          ['s']).messages.head? ≠ some (.contentMessage cm) := by
  constructor
  · rfl
  · intro cm h
    rw [show (Context.set_first_system_message
        ⟨[ContextMessage.toolMessage ⟨['t'], none, Json.null, false⟩], [], none⟩
        ['s']).messages.head? =
        some (.toolMessage ⟨['t'], none, Json.null, false⟩) from rfl] at h
    injection h with h
    cases h

/-- C10: implicit invariant of Assistant messages — the
`ContextMessage::assistant` constructor normalises an empty tool-call list to
`None`, so an Assistant content message built through it carries either `None`
or a non-empty tool-call sequence; in particular the turn loop's context update
appends an Assistant message with `tool_calls = None` whenever the turn
produced no tool calls. -/
theorem assistant_tool_calls_invariant :
    (∀ (content : Str) (calls : Option (List ToolCallFull)), ∃ cm : ContentMessage,
      ContextMessage.assistant content calls = .contentMessage cm ∧
      cm.role = .assistant ∧ cm.content = content ∧
      (cm.toolCalls = none ∨ ∃ l, l ≠ [] ∧ cm.toolCalls = some l ∧ calls = some l)) ∧
    (∀ content : Str, ContextMessage.assistant content (some []) =
      .contentMessage ⟨.assistant, content, none⟩) ∧
    (∀ (ctx : Context) (content : Str),
      (ctx.add_message (ContextMessage.assistant content (some []))).messages =
        ctx.messages ++ [.contentMessage ⟨.assistant, content, none⟩]) := by
  refine ⟨?_, fun content => rfl, fun ctx content => rfl⟩
  intro content calls
  match calls with
  | none => exact ⟨⟨.assistant, content, none⟩, rfl, rfl, rfl, Or.inl rfl⟩
  | some [] => exact ⟨⟨.assistant, content, none⟩, rfl, rfl, rfl, Or.inl rfl⟩
  | some (x :: xs) =>
    exact ⟨⟨.assistant, content, some (x :: xs)⟩, rfl, rfl, rfl,
      Or.inr ⟨x :: xs, by simp, rfl, rfl⟩⟩

/-! ## Tool dispatcher — src/crates/forge_tool/src/tool_service.rs -/

/-- Modelled from the spec: a registered `Tool` is a definition plus an executor
`invoke(JSON) → Result<JSON, string>` (tool.rs is not under src/). -/
structure Tool where
  definition : ToolDefinition
  executable : Json → Except Str Json

/-- The `Live` tool service: its `HashMap<ToolName, Tool>` is modelled as an
association list in registration order (the source's key iteration order is
arbitrary). -/
structure Live where
  tools : List (ToolName × Tool)

/-- `HashMap::get` on the modelled tool map. -/
def lookupTool (tools : List (ToolName × Tool)) (name : ToolName) : Option Tool :=
  (tools.find? (fun p => p.1 == name)).map (fun p => p.2)

/-- Modelled from the spec: `ToolResult::from(call)` carries the call's name and
id into a fresh result (tool_result.rs is not under src/). -/
def ToolResult.fromCall (call : ToolCallFull) : ToolResult :=
  ⟨call.name, call.callId, .str [], false⟩

/-- Modelled from the spec: the derive-setters `.content(...)` builder on
`ToolResult` sets the content field. -/
def ToolResult.setContent (r : ToolResult) (v : Json) : ToolResult :=
  { r with content := v }

/-- Modelled from the spec: `ToolResult::success` sets a success payload. -/
def ToolResult.success (r : ToolResult) (msg : Str) : ToolResult :=
  { r with content := .str msg, isError := false }

/-- Modelled from the spec: `ToolResult::failure` sets an error payload. -/
def ToolResult.failure (r : ToolResult) (msg : Str) : ToolResult :=
  { r with content := .str msg, isError := true }

/-- An apostrophe character, for the source's quoted tool name. -/
def sqc : Char := Char.ofNat 39

/-- Rust `[..].join(", ")` over the available tool names. -/
def joinCommaSpace : List Str → Str
  | [] => []
  | [w] => w
  | w :: rest => w ++ ',' :: ' ' :: joinCommaSpace rest

/-- `Live::call` from tool_service.rs: look the name up; on a hit run the
executor, on a miss build the unknown-tool message naming the tool and listing
every available tool; wrap executor/lookup errors in `<error>…</error>`. -/
def Live.call (svc : Live) (call : ToolCallFull) : ToolResult :=
  let name := call.name
  let input := call.arguments
  let available_tools := joinCommaSpace (svc.tools.map (fun p => p.1))
  let output : Except Str Json :=
    match lookupTool svc.tools name with
    | some tool => tool.executable input
    | none =>
      .error ("No tool with name ".toList ++ sqc ::
        (name ++ sqc :: (" was found. Please try again with one of these tools ".toList ++
          available_tools)))
  match output with
  | .ok output => (ToolResult.fromCall call).setContent output
  | .error error =>
    (ToolResult.fromCall call).setContent
      (.str ("<error>".toList ++ (error ++ "</error>".toList)))

/-- Character-wise `≤` for lexicographic name ordering. -/
def strLe : Str → Str → Bool
  | [], _ => true
  | _ :: _, [] => false
  | a :: as_, b :: bs => if a = b then strLe as_ bs else decide (a.toNat < b.toNat)

/-- Stable insertion for the sort below. -/
def insertLe (le : ToolDefinition → ToolDefinition → Bool) (x : ToolDefinition) :
    List ToolDefinition → List ToolDefinition
  | [] => [x]
  | y :: ys => if le x y then x :: y :: ys else y :: insertLe le x ys

/-- Stable sort of tool definitions (the source's stable `sort_by`; a stable
insertion sort produces the same list). -/
def sortToolDefs (le : ToolDefinition → ToolDefinition → Bool) :
    List ToolDefinition → List ToolDefinition
  | [] => []
  | x :: xs => insertLe le x (sortToolDefs le xs)

/-- `Live::list` from tool_service.rs: the definitions sorted by name. -/
def Live.list (svc : Live) : List ToolDefinition :=
  sortToolDefs (fun a b => strLe a.name b.name) (svc.tools.map (fun p => p.2.definition))

/-- A pattern placed after an arbitrary prefix is always found. -/
theorem findSub_isSome_of_append (pat pre suf : Str) :
    (findSub pat (pre ++ (pat ++ suf))).isSome := by
  rcases h : findSub pat (pre ++ (pat ++ suf)) with _ | i
  · rw [findSub_eq_none_iff] at h
    have hx := h pre.length
    rw [drop_append_self, leadsWith_self_append] at hx
    cases hx
  · rfl

/-- Every member of a comma-space join occurs in the joined string. -/
theorem joinCommaSpace_mem (names : List Str) (w : Str) (hmem : w ∈ names) :
    ∃ pre suf, joinCommaSpace names = pre ++ (w ++ suf) := by
  induction names with
  | nil => cases hmem
  | cons x rest ih =>
    rcases List.mem_cons.mp hmem with rfl | hmem'
    · cases rest with
      | nil => exact ⟨[], [], by simp [joinCommaSpace]⟩
      | cons y ys =>
        exact ⟨[], ',' :: ' ' :: joinCommaSpace (y :: ys), by simp [joinCommaSpace]⟩
    · rcases ih hmem' with ⟨pre, suf, hjoin⟩
      cases rest with
      | nil => cases hmem'
      | cons y ys =>
        refine ⟨x ++ ',' :: ' ' :: pre, suf, ?_⟩
        rw [show joinCommaSpace (x :: y :: ys) = x ++ ',' :: ' ' :: joinCommaSpace (y :: ys)
          from rfl, hjoin]
        simp

/-- C9: unknown-tool dispatch — for every tool call whose name is not
registered, `Live::call` returns a tool-result (not a dispatcher failure) whose
content is wrapped in `<error>…</error>` and whose body both names the unknown
tool and contains the name of every available tool. -/
theorem unknown_tool_error_result (svc : Live) (call : ToolCallFull)
    (hmiss : lookupTool svc.tools call.name = none) :
    ∃ body : Str,
      Live.call svc call = (ToolResult.fromCall call).setContent
        (.str ("<error>".toList ++ (body ++ "</error>".toList))) ∧
      (findSub call.name body).isSome ∧
      ∀ p ∈ svc.tools, (findSub p.1 body).isSome := by
  refine ⟨"No tool with name ".toList ++ sqc ::
    (call.name ++ sqc :: (" was found. Please try again with one of these tools ".toList ++
      joinCommaSpace (svc.tools.map (fun p => p.1)))), ?_, ?_, ?_⟩
  · simp only [Live.call, hmiss]
  · rw [show "No tool with name ".toList ++ sqc ::
      (call.name ++ sqc :: (" was found. Please try again with one of these tools ".toList ++
        joinCommaSpace (svc.tools.map (fun p => p.1)))) =
      ("No tool with name ".toList ++ [sqc]) ++
        (call.name ++ sqc :: (" was found. Please try again with one of these tools ".toList ++
          joinCommaSpace (svc.tools.map (fun p => p.1)))) from by simp]
    exact findSub_isSome_of_append _ _ _
  · intro p hp
    rcases joinCommaSpace_mem (svc.tools.map (fun q => q.1)) p.1
      (List.mem_map_of_mem (fun q => q.1) hp) with ⟨pre, suf, hjoin⟩
    rw [hjoin]
    rw [show "No tool with name ".toList ++ sqc ::
      (call.name ++ sqc :: (" was found. Please try again with one of these tools ".toList ++
        (pre ++ (p.1 ++ suf)))) =
      ("No tool with name ".toList ++ sqc ::
        (call.name ++ sqc :: (" was found. Please try again with one of these tools ".toList ++
          pre))) ++ (p.1 ++ suf) from by simp]
    exact findSub_isSome_of_append _ _ _

/-- Witness for the unknown-tool theorem: a one-tool registry and a call to an
unregistered name. -/
theorem unknown_tool_error_result_witness :
    lookupTool (Live.mk [("fs_read".toList, ⟨⟨"fs_read".toList, [], .null, none⟩,
        fun _ => .ok .null⟩)]).tools "nope".toList = none ∧
    ∃ body : Str,
      Live.call (Live.mk [("fs_read".toList, ⟨⟨"fs_read".toList, [], .null, none⟩,
          fun _ => .ok .null⟩)]) ⟨"nope".toList, none, .null⟩ =
        (ToolResult.fromCall ⟨"nope".toList, none, .null⟩).setContent
          (.str ("<error>".toList ++ (body ++ "</error>".toList))) ∧
      (findSub "nope".toList body).isSome ∧
      ∀ p ∈ (Live.mk [("fs_read".toList, ⟨⟨"fs_read".toList, [], .null, none⟩,
          fun _ => .ok .null⟩)]).tools, (findSub p.1 body).isSome := by
  exact ⟨rfl, unknown_tool_error_result _ ⟨"nope".toList, none, .null⟩ rfl⟩

/-! ## Orchestrator — src/crates/forge_domain/src/orch.rs

The collaborators whose sources are not under src/ (agent.rs, workflow.rs,
summarize.rs, prompt.rs, tool_call.rs) are modelled from the spec.  Rust's
unbounded recursion across agents is embedded with an explicit recursion-depth
fuel (the spec's design note bounds agent recursion by a configurable depth);
every recursive call consumes fuel. -/

/-- Modelled from the spec: `AgentId`, an opaque string identifier. -/
abbrev AgentId := Str

/-- Modelled from the spec: `Variables`, the workflow-global key/value store;
the map is an association list where an `add` shadows previous entries. -/
structure Variables where
  entries : List (Str × Json)

/-- Fresh empty variable store (`Variables::default()`). -/
def Variables.default : Variables := ⟨[]⟩

/-- `Variables::get`. -/
def Variables.get (v : Variables) (k : Str) : Option Json :=
  (v.entries.find? (fun p => p.1 == k)).map (fun p => p.2)

/-- `Variables::add` (insert-or-replace). -/
def Variables.add (v : Variables) (k : Str) (val : Json) : Variables :=
  ⟨(k, val) :: v.entries⟩

/-- Modelled from the spec: `Variables::from(arguments)` reads the call's JSON
object fields into the store. -/
def Variables.fromJson : Json → Variables
  | .obj fs => ⟨fs⟩
  | _ => ⟨[]⟩

/-- `Transform` from orch.rs (the enum fields as in the source). -/
inductive Transform where
  | assistant (agentId : AgentId) (tokenLimit : Nat) (input : Str) (output : Str)
  | user (agentId : AgentId) (input : Str) (output : Str)
  | tap (agentId : AgentId) (input : Str)

/-- Modelled from the spec: `Agent` = id, model, prompts, tools, transforms,
ephemerality (agent.rs is not under src/).  Prompts are opaque template
strings rendered by the collaborator in `OrchEnv`. -/
structure Agent where
  id : AgentId
  model : Str
  systemPrompt : Str
  userPrompt : Str
  tools : List ToolName
  transforms : List Transform
  ephemeral : Bool

/-- Modelled from the spec: `Workflow` = agents keyed by id plus a head id
(workflow.rs is not under src/). -/
structure Workflow where
  agents : List Agent
  head : AgentId

/-- Modelled from the spec: `Workflow::find_agent`, id-keyed lookup. -/
def Workflow.find_agent (w : Workflow) (id : AgentId) : Option Agent :=
  w.agents.find? (fun a => a.id == id)

/-- The error kinds of the orchestrator (error.rs is not under src/; the kinds
are the spec's taxonomy).  `outOfFuel` is the bounded-recursion-depth artifact
of the embedding. -/
inductive OrchError where
  | unknownAgent (id : AgentId)
  | undefinedVariable (key : Str)
  | outOfFuel

/-- `Workflow::get_agent`: find or fail with `UnknownAgent`. -/
def Workflow.get_agent (w : Workflow) (id : AgentId) : Except OrchError Agent :=
  match w.find_agent id with
  | some a => .ok a
  | none => .error (.unknownAgent id)

/-- `struct ChatCompletionResult` from orch.rs: the aggregated provider turn. -/
structure ChatCompletionResult where
  content : Str
  toolCalls : List ToolCallFull

/-- Modelled from the spec: one step of the `Summarize` iterator
(summarize.rs is not under src/): `get` is the window text handed to the
sub-agent and `set` replaces the window with the summary, yielding the new
context. -/
structure SummarizeStep where
  get : Str
  set : Str → Context

/-- The orchestrator's collaborators: the workflow, the provider (already
aggregated through `collect_messages`), the tool service, template rendering
(prompt.rs is not under src/), the per-tool usage prompt text, and the
summariser. -/
structure OrchEnv where
  workflow : Workflow
  provider : Str → Context → ChatCompletionResult
  toolSvc : Live
  render : Str → Variables → Str
  renderSystem : Str → Str → Str
  usagePrompt : ToolDefinition → Str
  summarize : Context → Nat → Option SummarizeStep

/-- The orchestrator's shared mutable state: the per-agent context map and the
variable store (both `Arc<Mutex<…>>` in the source; the single-task execution
model makes them plain state here). -/
structure OrchState where
  state : List (AgentId × Context)
  vars : Variables

/-- `HashMap::get` on the per-agent context map. -/
def OrchState.getContext (s : OrchState) (id : AgentId) : Option Context :=
  (s.state.find? (fun p => p.1 == id)).map (fun p => p.2)

/-- `HashMap::insert` on the per-agent context map (shadowing insert). -/
def OrchState.putContext (s : OrchState) (id : AgentId) (ctx : Context) : OrchState :=
  { s with state := (id, ctx) :: s.state }

/-- `struct ReadVariable` from orch.rs. -/
structure ReadVariable where
  name : Str

/-- `struct WriteVariable` from orch.rs. -/
structure WriteVariable where
  name : Str
  value : Str

/-- Field access on a JSON object. -/
def jsonField (j : Json) (k : Str) : Option Json :=
  match j with
  | .obj fs => (fs.find? (fun p => p.1 == k)).map (fun p => p.2)
  | _ => none

/-- A JSON string value. -/
def jsonAsStr : Json → Option Str
  | .str s => some s
  | _ => none

/-- `ReadVariable::tool_definition` from orch.rs (the schema is opaque here). -/
def ReadVariable.tool_definition : ToolDefinition :=
  ⟨"forge_read_variable".toList, "Reads a global workflow variable".toList, .null, none⟩

/-- `WriteVariable::tool_definition` from orch.rs. -/
def WriteVariable.tool_definition : ToolDefinition :=
  ⟨"forge_write_variable".toList, "Writes a global workflow variable".toList, .null, none⟩

/-- `ReadVariable::parse` from orch.rs: name must match, arguments must
deserialise to `{ name: String }`. -/
def ReadVariable.parse (tc : ToolCallFull) : Option ReadVariable :=
  if tc.name = ReadVariable.tool_definition.name then
    ((jsonField tc.arguments "name".toList).bind jsonAsStr).map (fun n => ⟨n⟩)
  else none

/-- `WriteVariable::parse` from orch.rs: name must match, arguments must
deserialise to `{ name: String, value: String }`. -/
def WriteVariable.parse (tc : ToolCallFull) : Option WriteVariable :=
  if tc.name = WriteVariable.tool_definition.name then
    match (jsonField tc.arguments "name".toList).bind jsonAsStr,
        (jsonField tc.arguments "value".toList).bind jsonAsStr with
    | some n, some v => some ⟨n, v⟩
    | _, _ => none
  else none

/-- `Orchestrator::read_variable` from orch.rs. -/
def read_variable (st : OrchState) (tc : ToolCallFull) (read : ReadVariable) : ToolResult :=
  match st.vars.get read.name with
  | some value => (ToolResult.fromCall tc).success (renderJson value)
  | none =>
    (ToolResult.fromCall tc).failure ("Variable ".toList ++ (read.name ++ " not found".toList))

/-- `Orchestrator::write_variable` from orch.rs. -/
def write_variable (st : OrchState) (tc : ToolCallFull) (write : WriteVariable) :
    OrchState × ToolResult :=
  ({ st with vars := st.vars.add write.name (.str write.value) },
   (ToolResult.fromCall tc).success
     ("Variable ".toList ++ (write.name ++ (" set to ".toList ++ write.value))))

/-- `Orchestrator::init_tool_definitions` from orch.rs: the registry list plus
the two synthetic variable tools, filtered to the agent's allow-set. -/
def init_tool_definitions (env : OrchEnv) (agent : Agent) : List ToolDefinition :=
  let forgeTools := env.toolSvc.list ++ [ReadVariable.tool_definition,
    WriteVariable.tool_definition]
  forgeTools.filter (fun td => agent.tools.contains td.name)

/-- `Orchestrator::init_agent_context` from orch.rs: system message from the
tool-usage text, first user message from the rendered user prompt, tools
attached. -/
def init_agent_context (env : OrchEnv) (agent : Agent) (input : Variables) : Context :=
  let toolDefs := init_tool_definitions env agent
  let toolUsagePrompt := toolDefs.foldl (fun acc td => acc ++ '\n' :: env.usagePrompt td) []
  let systemMessage := env.renderSystem agent.systemPrompt toolUsagePrompt
  let userMessage := ContextMessage.user (env.render agent.userPrompt input)
  ((Context.default.set_first_system_message systemMessage).add_message
    userMessage).extend_tools toolDefs

mutual

/-- `Orchestrator::init_agent` from orch.rs: resolve the agent, build or load
its context, append the rendered user message, and enter the turn loop. -/
def init_agent (env : OrchEnv) : Nat → OrchState → AgentId → Variables →
    Except OrchError OrchState
  | 0, _, _, _ => .error .outOfFuel
  | fuel + 1, st, agentId, input =>
    match env.workflow.get_agent agentId with
    | .error e => .error e
    | .ok agent =>
      let context :=
        if agent.ephemeral then init_agent_context env agent input
        else
          match st.getContext agent.id with
          | some ctx => ctx
          | none => init_agent_context env agent input
      let content := env.render agent.userPrompt input
      let context := context.add_message (ContextMessage.user content)
      turnLoop env fuel st agent context

/-- The `loop { … }` of `init_agent` from orch.rs: transform the context,
request a completion, dispatch the tool calls, append the assistant message and
the tool-result batch, persist the context for non-ephemeral agents, and return
exactly when the turn produced no tool results. -/
def turnLoop (env : OrchEnv) : Nat → OrchState → Agent → Context →
    Except OrchError OrchState
  | 0, _, _, _ => .error .outOfFuel
  | fuel + 1, st, agent, context =>
    match execute_transform env fuel st agent.transforms context with
    | .error e => .error e
    | .ok (st1, ctx1) =>
      let res := env.provider agent.model ctx1
      match execute_tools env fuel st1 res.toolCalls with
      | .error e => .error e
      | .ok (st2, toolResults) =>
        let ctx2 := (ctx1.add_message (ContextMessage.assistant res.content
          (some res.toolCalls))).add_tool_results toolResults
        let st3 := if agent.ephemeral then st2 else st2.putContext agent.id ctx2
        if toolResults.isEmpty then .ok st3
        else turnLoop env fuel st3 agent ctx2

/-- The `for tool_call in tool_calls` loop of `init_agent`: dispatch each call
in order, collecting the `Some` results. -/
def execute_tools (env : OrchEnv) : Nat → OrchState → List ToolCallFull →
    Except OrchError (OrchState × List ToolResult)
  | _, st, [] => .ok (st, [])
  | 0, _, _ :: _ => .error .outOfFuel
  | fuel + 1, st, tc :: rest =>
    match execute_tool env fuel st tc with
    | .error e => .error e
    | .ok (st1, r) =>
      match execute_tools env fuel st1 rest with
      | .error e => .error e
      | .ok (st2, rs) =>
        .ok (st2, match r with | some x => x :: rs | none => rs)

/-- `Orchestrator::execute_tool` from orch.rs: variable tools first, then
sub-agents by id (which recurse and yield no ToolResult), then the tool
service. -/
def execute_tool (env : OrchEnv) : Nat → OrchState → ToolCallFull →
    Except OrchError (OrchState × Option ToolResult)
  | 0, _, _ => .error .outOfFuel
  | fuel + 1, st, tc =>
    match ReadVariable.parse tc with
    | some read => .ok (st, some (read_variable st tc read))
    | none =>
      match WriteVariable.parse tc with
      | some write =>
        let pr := write_variable st tc write
        .ok (pr.1, some pr.2)
      | none =>
        match env.workflow.find_agent tc.name with
        | some agent =>
          match init_agent env fuel st agent.id (Variables.fromJson tc.arguments) with
          | .error e => .error e
          | .ok st1 => .ok (st1, none)
        | none => .ok (st, some (env.toolSvc.call tc))

/-- The `for transform in transforms.iter()` loop of
`Orchestrator::execute_transform` from orch.rs, in declaration order. -/
def execute_transform (env : OrchEnv) : Nat → OrchState → List Transform → Context →
    Except OrchError (OrchState × Context)
  | _, st, [], ctx => .ok (st, ctx)
  | 0, _, _ :: _, _ => .error .outOfFuel
  | fuel + 1, st, t :: ts, ctx =>
    match execute_transform_one env fuel st t ctx with
    | .error e => .error e
    | .ok (st1, ctx1) => execute_transform env fuel st1 ts ctx1

/-- One arm of the `match transform` in `Orchestrator::execute_transform`:
Assistant summarisation, User augmentation, or a Tap observation (which runs the
named sub-agent on `Context::to_text` and never mutates the context). -/
def execute_transform_one (env : OrchEnv) : Nat → OrchState → Transform → Context →
    Except OrchError (OrchState × Context)
  | 0, _, _, _ => .error .outOfFuel
  | fuel + 1, st, .assistant agentId tokenLimit inputKey outputKey, ctx =>
    assistantLoop env fuel st agentId tokenLimit inputKey outputKey ctx
  | fuel + 1, st, .user agentId inputKey outputKey, ctx =>
    match ctx.messages.getLast? with
    | some (.contentMessage cm) =>
      if cm.role = .user then
        let input := Variables.default.add inputKey (.str cm.content)
        match init_agent env fuel st agentId input with
        | .error e => .error e
        | .ok st1 =>
          match st1.vars.get outputKey with
          | none => .error (.undefinedVariable outputKey)
          | some value =>
            let message := renderJson value
            let newContent := cm.content ++ '\n' :: '<' ::
              (outputKey ++ '>' :: '\n' :: (message ++ '\n' :: '<' :: '/' ::
                (outputKey ++ ['>'])))
            .ok (st1, { ctx with messages :=
              ctx.messages.dropLast ++ [.contentMessage { cm with content := newContent }] })
      else .ok (st, ctx)
    | _ => .ok (st, ctx)
  | fuel + 1, st, .tap agentId inputKey, ctx =>
    let input := Variables.default.add inputKey (.str ctx.to_text)
    match init_agent env fuel st agentId input with
    | .error e => .error e
    | .ok st1 => .ok (st1, ctx)

/-- The `while let Some(mut summary) = summarize.summarize()` loop of the
Assistant transform arm. -/
def assistantLoop (env : OrchEnv) : Nat → OrchState → AgentId → Nat → Str → Str →
    Context → Except OrchError (OrchState × Context)
  | fuel, st, agentId, tokenLimit, inputKey, outputKey, ctx =>
    match env.summarize ctx tokenLimit with
    | none => .ok (st, ctx)
    | some step =>
      match fuel with
      | 0 => .error .outOfFuel
      | fuel + 1 =>
        let input := Variables.default.add inputKey (.str step.get)
        match init_agent env fuel st agentId input with
        | .error e => .error e
        | .ok st1 =>
          match st1.vars.get outputKey with
          | none => .error (.undefinedVariable outputKey)
          | some value =>
            assistantLoop env fuel st1 agentId tokenLimit inputKey outputKey
              (step.set (renderJson value))

end

/-- A Tap transform passes the incoming context through unchanged whenever it
succeeds. -/
theorem execute_transform_one_tap_frame (env : OrchEnv) (fuel : Nat) (st : OrchState)
    (t : Transform) (ctx : Context) (st' : OrchState) (ctx' : Context)
    (htap : ∃ agentId inputKey, t = .tap agentId inputKey)
    (h : execute_transform_one env fuel st t ctx = .ok (st', ctx')) : ctx' = ctx := by
  rcases htap with ⟨agentId, inputKey, rfl⟩
  cases fuel with
  | zero => cases h
  | succ fuel =>
    rw [show execute_transform_one env (fuel + 1) st (.tap agentId inputKey) ctx =
      (match init_agent env fuel st agentId
          (Variables.default.add inputKey (.str ctx.to_text)) with
        | .error e => .error e
        | .ok st1 => .ok (st1, ctx)) from rfl] at h
    rcases hinit : init_agent env fuel st agentId
        (Variables.default.add inputKey (.str ctx.to_text)) with e | st1 <;>
      rw [hinit] at h
    · cases h
    · injection h with h
      cases h
      rfl

/-- A list of Tap transforms passes the incoming context through unchanged
whenever the pipeline succeeds. -/
theorem execute_transform_tap_list_frame (env : OrchEnv) (ts : List Transform) :
    ∀ (fuel : Nat) (st : OrchState) (ctx : Context) (st' : OrchState) (ctx' : Context),
      (∀ t ∈ ts, ∃ agentId inputKey, t = .tap agentId inputKey) →
      execute_transform env fuel st ts ctx = .ok (st', ctx') → ctx' = ctx := by
  induction ts with
  | nil =>
    intro fuel st ctx st' ctx' _ h
    rw [show execute_transform env fuel st [] ctx = .ok (st, ctx) from by
      cases fuel <;> rfl] at h
    injection h with h
    cases h
    rfl
  | cons t ts ih =>
    intro fuel st ctx st' ctx' hall h
    match fuel with
    | 0 => cases h
    | fuel + 1 =>
      rw [show execute_transform env (fuel + 1) st (t :: ts) ctx =
        (match execute_transform_one env fuel st t ctx with
          | .error e => .error e
          | .ok (st1, ctx1) => execute_transform env fuel st1 ts ctx1) from rfl] at h
      rcases hone : execute_transform_one env fuel st t ctx with e | ⟨st1, ctx1⟩ <;>
        rw [hone] at h
      · cases h
      · have hctx1 : ctx1 = ctx :=
          execute_transform_one_tap_frame env fuel st t ctx st1 ctx1
            (hall t (by simp)) hone
        have := ih fuel st1 ctx1 st' ctx' (fun x hx => hall x (by simp [hx])) h
        rw [this, hctx1]

/-- C6: transform frame property — `execute_transform` runs transforms in
declaration order (running a list is running the head and then the tail on its
result), and a Tap transform only copies `Context::to_text()` into
`Variables[input_key]` and runs the named sub-agent: on success the context it
passes on is exactly the context it received, for one Tap and for any list of
Taps. -/
theorem transform_order_and_tap_frame :
    (∀ (env : OrchEnv) (fuel : Nat) (st : OrchState) (t : Transform)
        (ts : List Transform) (ctx : Context),
      execute_transform env (fuel + 1) st (t :: ts) ctx =
        match execute_transform_one env fuel st t ctx with
        | .error e => .error e
        | .ok (st1, ctx1) => execute_transform env fuel st1 ts ctx1) ∧
    (∀ (env : OrchEnv) (fuel : Nat) (st : OrchState) (agentId : AgentId)
        (inputKey : Str) (ctx : Context),
      execute_transform_one env (fuel + 1) st (.tap agentId inputKey) ctx =
        match init_agent env fuel st agentId
            (Variables.default.add inputKey (.str ctx.to_text)) with
        | .error e => .error e
        | .ok st1 => .ok (st1, ctx)) ∧
    (∀ (env : OrchEnv) (fuel : Nat) (st : OrchState) (t : Transform) (ctx : Context)
        (st' : OrchState) (ctx' : Context),
      (∃ agentId inputKey, t = .tap agentId inputKey) →
      execute_transform_one env fuel st t ctx = .ok (st', ctx') → ctx' = ctx) ∧
    (∀ (env : OrchEnv) (fuel : Nat) (st : OrchState) (ts : List Transform)
        (ctx : Context) (st' : OrchState) (ctx' : Context),
      (∀ t ∈ ts, ∃ agentId inputKey, t = .tap agentId inputKey) →
      execute_transform env fuel st ts ctx = .ok (st', ctx') → ctx' = ctx) :=
  ⟨fun _ _ _ _ _ _ => rfl,
   fun _ _ _ _ _ _ => rfl,
   fun env fuel st t ctx st' ctx' htap h =>
     execute_transform_one_tap_frame env fuel st t ctx st' ctx' htap h,
   fun env fuel st ts ctx st' ctx' hall h =>
     execute_transform_tap_list_frame env ts fuel st ctx st' ctx' hall h⟩

/-- The demonstration agent for the orchestrator witnesses: an ephemeral agent
with no transforms whose provider turn yields no tool calls. -/
def demoAgent : Agent := ⟨"b".toList, [], [], [], [], [], true⟩

/-- The demonstration environment: one agent, a provider that answers with no
content and no tool calls, an empty tool registry, identity template
rendering, and no summarisation windows. -/
def demoEnv : OrchEnv :=
  ⟨⟨[demoAgent], "b".toList⟩, fun _ _ => ⟨[], []⟩, ⟨[]⟩, fun p _ => p, fun p _ => p,
    fun _ => [], fun _ _ => none⟩

/-- The demonstration starting state: no per-agent contexts, no variables. -/
def demoState : OrchState := ⟨[], ⟨[]⟩⟩

/-- Witness for the transform theorem: a Tap over the demonstration sub-agent
succeeds and passes the context through unchanged. -/
theorem transform_order_and_tap_frame_witness :
    (∃ agentId inputKey,
      (Transform.tap "b".toList "k".toList : Transform) = .tap agentId inputKey) ∧
    execute_transform_one demoEnv 3 demoState (.tap "b".toList "k".toList)
      Context.default = .ok (demoState, Context.default) ∧
    Context.default = Context.default := by
  refine ⟨⟨"b".toList, "k".toList, rfl⟩, rfl, ?_⟩
  exact transform_order_and_tap_frame.2.2.1 demoEnv 3 demoState
    (.tap "b".toList "k".toList) Context.default demoState Context.default
    ⟨"b".toList, "k".toList, rfl⟩ rfl

/-- C5: turn-loop termination — the turn loop returns exactly when the
dispatched tool calls of a turn produced zero ToolResults (and otherwise loops
into the next turn on the updated context); a turn with zero tool calls
trivially produces zero ToolResults and so returns without starting a new turn;
and a tool call whose name resolves to an agent recurses into `init_agent` for
that sub-agent and contributes no ToolResult to the turn. -/
theorem turn_loop_contract :
    (∀ (env : OrchEnv) (fuel : Nat) (st st1 st2 : OrchState) (agent : Agent)
        (context ctx1 : Context) (toolResults : List ToolResult),
      execute_transform env fuel st agent.transforms context = .ok (st1, ctx1) →
      execute_tools env fuel st1 (env.provider agent.model ctx1).toolCalls =
        .ok (st2, toolResults) →
      ((toolResults = [] →
        turnLoop env (fuel + 1) st agent context =
          .ok (if agent.ephemeral then st2
            else st2.putContext agent.id
              ((ctx1.add_message (ContextMessage.assistant
                  (env.provider agent.model ctx1).content
                  (some (env.provider agent.model ctx1).toolCalls))).add_tool_results
                toolResults))) ∧
       (toolResults ≠ [] →
        turnLoop env (fuel + 1) st agent context =
          turnLoop env fuel
            (if agent.ephemeral then st2
              else st2.putContext agent.id
                ((ctx1.add_message (ContextMessage.assistant
                    (env.provider agent.model ctx1).content
                    (some (env.provider agent.model ctx1).toolCalls))).add_tool_results
                  toolResults))
            agent
            ((ctx1.add_message (ContextMessage.assistant
                (env.provider agent.model ctx1).content
                (some (env.provider agent.model ctx1).toolCalls))).add_tool_results
              toolResults)))) ∧
    (∀ (env : OrchEnv) (fuel : Nat) (st : OrchState),
      execute_tools env fuel st [] = .ok (st, [])) ∧
    (∀ (env : OrchEnv) (fuel : Nat) (st : OrchState) (tc : ToolCallFull) (agent : Agent),
      ReadVariable.parse tc = none → WriteVariable.parse tc = none →
      env.workflow.find_agent tc.name = some agent →
      execute_tool env (fuel + 1) st tc =
        match init_agent env fuel st agent.id (Variables.fromJson tc.arguments) with
        | .error e => .error e
        | .ok st1 => .ok (st1, none)) ∧
    (∀ (env : OrchEnv) (fuel : Nat) (st st1 : OrchState) (tc : ToolCallFull)
        (rest : List ToolCallFull),
      execute_tool env fuel st tc = .ok (st1, none) →
      execute_tools env (fuel + 1) st (tc :: rest) = execute_tools env fuel st1 rest) := by
  refine ⟨?_, ?_, ?_, ?_⟩
  · intro env fuel st st1 st2 agent context ctx1 toolResults htr hex
    constructor
    · intro hres
      subst hres
      simp only [turnLoop]
      rw [htr]
      dsimp only []
      rw [hex]
      rfl
    · intro hres
      cases toolResults with
      | nil => exact absurd rfl hres
      | cons r rs =>
        simp only [turnLoop]
        rw [htr]
        dsimp only []
        rw [hex]
        rfl
  · intro env fuel st
    cases fuel <;> rfl
  · intro env fuel st tc agent h1 h2 h3
    simp only [execute_tool]
    rw [h1]
    dsimp only []
    rw [h2]
    dsimp only []
    rw [h3]
  · intro env fuel st st1 tc rest h
    simp only [execute_tools]
    rw [h]
    dsimp only []
    rcases hrest : execute_tools env fuel st1 rest with e | ⟨st2, rs⟩ <;> rfl

/-- Witness for the turn-loop theorem: the demonstration agent's turn yields no
tool calls, so the batch is empty and the loop returns after the single turn. -/
theorem turn_loop_contract_witness :
    execute_transform demoEnv 1 demoState demoAgent.transforms Context.default =
      .ok (demoState, Context.default) ∧
    execute_tools demoEnv 1 demoState
      (demoEnv.provider demoAgent.model Context.default).toolCalls =
      .ok (demoState, []) ∧
    turnLoop demoEnv 2 demoState demoAgent Context.default = .ok demoState := by
  refine ⟨rfl, rfl, ?_⟩
  exact ((turn_loop_contract.1 demoEnv 1 demoState demoState demoState demoAgent
    Context.default Context.default [] rfl rfl).1 rfl)

end Forge
